import Mathlib

/-!
Verification of the tick-commit-and-recovery engine of the world-engine
repository (cardinal/gamestate/tick.go), as a shallow embedding in Lean 4.

The durable backend state, the in-memory command buffer, and the four
operations GetTickNumbers / StartNextTick / FinalizeTick / Recover are
translated from the Go source.  Collaborators whose source is not part of
the repository snapshot (the txpool package, the generic codec package, the
redis-backed PrimitiveStorage adapter, makePipeOfRedisCommands and
DiscardPending) are modelled from the specification; those definitions carry
a doc comment starting with "Modelled from the spec:".

Go's untyped message payloads (interface values) are modelled by an
arbitrary countable payload type (Nat); raw byte strings are modelled by
List Nat; the redis string keys used by the engine (start tick key, end tick
key, pending-transaction journal key, plus game-state keys) are distinct
constants in Go and are modelled by distinct record fields / constructors.
-/

set_option linter.unusedVariables false

namespace WorldEngine

/-! ## Data model -/

/-- types.MessageID (a numeric message type identifier). -/
abbrev MessageID := Nat

/-- A decoded message payload (Go: an `any` value). -/
abbrev Payload := Nat

/-- A raw byte string (Go: []byte). -/
abbrev Bytes := List Nat

/-- A source transaction (Go: *sign.Transaction), carried around opaquely. -/
abbrev SignedTx := Nat

/-- types.Message: a message descriptor with its identifier and codec pair.
Translated from the message descriptor contract used by tick.go
(tx.ID(), tx.Encode, tx.Decode). -/
structure Message where
  id : MessageID
  encode : Payload → Except String Bytes
  decode : Bytes → Except String Payload

/-- Modelled from the spec: txpool.TxData, one transaction held by the pool;
tick.go reads the fields Msg, TxHash and Tx of each entry. -/
structure TxData where
  Msg : Payload
  TxHash : Nat
  Tx : SignedTx
deriving Repr, DecidableEq

/-- Modelled from the spec: the hash a pool derives for a source transaction
when a transaction is added (the hash is not part of the pool contract in the
spec and is never observed by recovery equivalence). -/
def hashOf (t : SignedTx) : Nat := t

/-- Modelled from the spec: txpool.TxPool, an in-memory multi-map from
message-type identifier to the ordered list of transactions submitted under
that type, insertion order preserved. -/
structure TxPool where
  txs : List (MessageID × List TxData)
deriving Repr, DecidableEq

/-- Modelled from the spec: txpool.New, a freshly constructed empty pool. -/
def TxPool.New : TxPool := ⟨[]⟩

/-- Lookup of a type's group among the pool's groups (a Go map read; an
absent key yields the empty slice). -/
def findGroup : List (MessageID × List TxData) → MessageID → List TxData
  | [], _ => []
  | (k, ds) :: rest, id => if k = id then ds else findGroup rest id

/-- Modelled from the spec: TxPool.ForID, the ordered list of transactions
submitted under one type (empty when the type is absent). -/
def TxPool.forID (p : TxPool) (id : MessageID) : List TxData :=
  findGroup p.txs id

/-- Helper for TxPool.addTransaction: append one entry to the group of its
type, creating the group at the end when the type is new. -/
def addToGroups (id : MessageID) (d : TxData) :
    List (MessageID × List TxData) → List (MessageID × List TxData)
  | [] => [(id, [d])]
  | (k, ds) :: rest =>
    if k = id then (k, ds ++ [d]) :: rest else (k, ds) :: addToGroups id d rest

/-- Modelled from the spec: TxPool.AddTransaction, appending one
(payload, source transaction) pair under a type identifier; the pool derives
the transaction hash from the source transaction. -/
def TxPool.addTransaction (p : TxPool) (id : MessageID) (msg : Payload)
    (tx : SignedTx) : TxPool :=
  ⟨addToGroups id ⟨msg, hashOf tx, tx⟩ p.txs⟩

/-- The journal record (tick.go, type pendingTransaction). -/
structure pendingTransaction where
  TypeID : MessageID
  TxHash : Nat
  Data : Bytes
  Tx : SignedTx
deriving Repr, DecidableEq

/-! ## Journal codec

Modelled from the spec: the codec package serializes the full ordered
sequence of pendingTransaction records once as a single journal value, and
decoding reverses this exactly.  The concrete model is a length-prefixed
flat encoding. -/

/-- Modelled from the spec: the encoding of a single pendingTransaction
record inside the journal value. -/
def encodePending (p : pendingTransaction) : Bytes :=
  p.TypeID :: p.TxHash :: p.Tx :: p.Data.length :: p.Data

/-- Modelled from the spec: codec.Encode for a []pendingTransaction value,
the single journal value written by StartNextTick. -/
def codecEncode (l : List pendingTransaction) : Bytes :=
  l.length :: (l.map encodePending).flatten

/-- Decoding of a single pendingTransaction record, returning the rest of
the input. -/
def decodePending : Bytes → Option (pendingTransaction × Bytes)
  | tid :: h :: stx :: len :: rest =>
    if len ≤ rest.length then
      some (⟨tid, h, rest.take len, stx⟩, rest.drop len)
    else none
  | _ => none

/-- Decoding of a counted sequence of pendingTransaction records, requiring
the input to be consumed exactly. -/
def decodeList : Nat → Bytes → Option (List pendingTransaction)
  | 0, [] => some []
  | 0, _ :: _ => none
  | n + 1, bz =>
    match decodePending bz with
    | none => none
    | some (p, rest) => (decodeList n rest).map (fun l => p :: l)

/-- Modelled from the spec: codec.Decode for a []pendingTransaction value. -/
def codecDecode (bz : Bytes) : Except String (List pendingTransaction) :=
  match bz with
  | [] => Except.error "failed to decode pending transactions"
  | n :: rest =>
    match decodeList n rest with
    | none => Except.error "failed to decode pending transactions"
    | some l => Except.ok l

lemma decodePending_encodePending (p : pendingTransaction) (rest : Bytes) :
    decodePending (encodePending p ++ rest) = some (p, rest) := by
  cases p with
  | mk tid h data stx =>
    simp only [encodePending, decodePending, List.cons_append]
    rw [if_pos]
    · simp [List.take_left, List.drop_left]
    · simp

lemma decodeList_encode (l : List pendingTransaction) (n : Nat) (rest : Bytes) :
    decodeList (l.length + n) ((l.map encodePending).flatten ++ rest) =
      (decodeList n rest).map (fun t => l ++ t) := by
  induction l with
  | nil =>
    simp only [List.length_nil, Nat.zero_add, List.map_nil, List.flatten_nil,
      List.nil_append]
    cases decodeList n rest <;> simp
  | cons p ps ih =>
    have hlen : (p :: ps).length + n = (ps.length + n) + 1 := by
      simp;  omega
    rw [hlen]
    simp only [List.map_cons, List.flatten_cons, List.append_assoc, decodeList,
      decodePending_encodePending]
    rw [ih]
    cases decodeList n rest <;> simp

/-- The journal codec round-trips: decoding an encoded sequence of
pendingTransaction records reproduces the sequence exactly. -/
lemma codecDecode_codecEncode (l : List pendingTransaction) :
    codecDecode (codecEncode l) = Except.ok l := by
  have h := decodeList_encode l 0 []
  simp only [Nat.add_zero, List.append_nil, decodeList] at h
  simp only [codecEncode, codecDecode, h]
  simp

/-! ## Durable store, pipelined backend transactions, command buffer -/

/-- The durable backend state owned by the engine: the start and end tick
counters, the pending-transaction journal, and the game-state keys written
at finalize.  A field holding none models a key that has never been
written. -/
structure Store where
  startTick : Option Nat
  endTick : Option Nat
  journal : Option Bytes
  gameState : List (Nat × Bytes)
deriving Repr, DecidableEq

/-- A store none of whose keys has ever been written. -/
def freshStore : Store := ⟨none, none, none, []⟩

/-- The numeric value a counter key represents (an absent key behaves as 0
for redis INCR and is reported as 0 by GetTickNumbers). -/
def counterVal (v : Option Nat) : Nat := v.getD 0

/-- redis INCR: an absent key is treated as 0 and set to 1. -/
def incrOpt (v : Option Nat) : Option Nat := some (counterVal v + 1)

/-- One command queued on a pipelined backend transaction.  The engine's
three durable keys and the game-state keys are distinct string constants in
the source; they appear here as distinct constructors. -/
inductive PipeCmd
  | setJournal (v : Bytes)
  | incrStart
  | incrEnd
  | setGame (k : Nat) (v : Bytes)
  | delGame (k : Nat)
deriving Repr, DecidableEq

/-- Write one game-state key, overwriting an existing value. -/
def setAssoc (l : List (Nat × Bytes)) (k : Nat) (v : Bytes) :
    List (Nat × Bytes) :=
  (l.filter (fun kv => kv.1 != k)) ++ [(k, v)]

/-- The durable effect of one pipelined command. -/
def applyCmd (s : Store) : PipeCmd → Store
  | PipeCmd.setJournal v => { s with journal := some v }
  | PipeCmd.incrStart => { s with startTick := incrOpt s.startTick }
  | PipeCmd.incrEnd => { s with endTick := incrOpt s.endTick }
  | PipeCmd.setGame k v => { s with gameState := setAssoc s.gameState k v }
  | PipeCmd.delGame k =>
    { s with gameState := s.gameState.filter (fun kv => kv.1 != k) }

/-- Modelled from the spec: committing a pipelined transaction applies all
queued commands atomically, in order. -/
def applyPipe (s : Store) (pipe : List PipeCmd) : Store :=
  pipe.foldl applyCmd s

/-- Failure injection for the backend calls made by the tick protocol; each
flag makes the corresponding backend call fail. -/
structure FailureModel where
  failStartTransaction : Bool
  failSetPending : Bool
  failIncrStart : Bool
  failMakePipe : Bool
  failIncrEnd : Bool
  failEndTransaction : Bool
deriving Repr, DecidableEq

/-- A backend in which every call succeeds. -/
def noFail : FailureModel := ⟨false, false, false, false, false, false⟩

/-- One entry of the in-memory mutation set: an entity/component write or
delete accumulated during simulation of the current tick. -/
inductive Mutation
  | write (k : Nat) (v : Bytes)
  | delete (k : Nat)
deriving Repr, DecidableEq

/-- Modelled from the spec: the backend command serializing one mutation. -/
def mutationCmd : Mutation → PipeCmd
  | Mutation.write k v => PipeCmd.setGame k v
  | Mutation.delete k => PipeCmd.delGame k

/-- The EntityCommandBuffer: the durable backend state it owns together
with its in-memory mutation set and cached derived indices
(pendingArchIDs). -/
structure EntityCommandBuffer where
  store : Store
  mutationSet : List Mutation
  pendingArchIDs : Option (List Nat)
deriving Repr, DecidableEq

/-- A freshly constructed command buffer over a fresh store. -/
def freshECB : EntityCommandBuffer := ⟨freshStore, [], none⟩

/-! ## GetTickNumbers -/

/-- Modelled from the spec: dbStorage.GetUInt64; a key that has never been
written surfaces the backend not-found sentinel (redis.Nil) as an error. -/
def getUInt64 (v : Option Nat) : Except String Nat :=
  match v with
  | none => Except.error "redis: nil"
  | some n => Except.ok n

/-- The redis.Nil check performed by GetTickNumbers
(eris.Is(eris.Cause(err), redis.Nil)). -/
def isRedisNil (e : String) : Bool := e == "redis: nil"

/-- tick.go GetTickNumbers: reads the start and end counters, mapping an
absent key to 0 and returning any other error. -/
def GetTickNumbers (m : EntityCommandBuffer) : Except String (Nat × Nat) :=
  match getUInt64 m.store.startTick with
  | Except.error e =>
    if isRedisNil e then
      match getUInt64 m.store.endTick with
      | Except.error er =>
        if isRedisNil er then Except.ok (0, 0) else Except.error er
      | Except.ok v => Except.ok (0, v)
    else Except.error e
  | Except.ok s =>
    match getUInt64 m.store.endTick with
    | Except.error er =>
      if isRedisNil er then Except.ok (s, 0) else Except.error er
    | Except.ok v => Except.ok (s, v)

/-! ## StartNextTick -/

/-- The inner loop of addPendingTransactionToPipe for one descriptor:
encode every pool transaction of that type, in submission order, into
pendingTransaction records. -/
def encodeGroup (tx : Message) :
    List TxData → Except String (List pendingTransaction)
  | [] => Except.ok []
  | d :: rest =>
    match tx.encode d.Msg with
    | Except.error e => Except.error e
    | Except.ok buf =>
      match encodeGroup tx rest with
      | Except.error e => Except.error e
      | Except.ok tail => Except.ok (⟨tx.id, d.TxHash, buf, d.Tx⟩ :: tail)

/-- The outer loop of addPendingTransactionToPipe: iterate the descriptor
list in order, appending each descriptor's encoded group. -/
def buildPending (pool : TxPool) :
    List Message → Except String (List pendingTransaction)
  | [] => Except.ok []
  | tx :: rest =>
    match encodeGroup tx (pool.forID tx.id) with
    | Except.error e => Except.error e
    | Except.ok grp =>
      match buildPending pool rest with
      | Except.error e => Except.error e
      | Except.ok tail => Except.ok (grp ++ tail)

/-- tick.go addPendingTransactionToPipe: build the pendingTransaction
sequence from the pool grouped by the descriptor list, serialize it once as
a single journal value, and queue the journal write on the pipe. -/
def addPendingTransactionToPipe (fm : FailureModel) (txs : List Message)
    (pool : TxPool) (pipe : List PipeCmd) : Except String (List PipeCmd) :=
  match buildPending pool txs with
  | Except.error e => Except.error e
  | Except.ok pending =>
    if fm.failSetPending then Except.error "failed to set pending transaction"
    else Except.ok (pipe ++ [PipeCmd.setJournal (codecEncode pending)])

/-- tick.go StartNextTick: open a pipelined transaction, queue the journal
write and the start-counter increment, and commit; every durable effect goes
through the pipe, and an error on any step returns before the commit. -/
def StartNextTick (fm : FailureModel) (m : EntityCommandBuffer)
    (txs : List Message) (pool : TxPool) :
    Option String × EntityCommandBuffer :=
  if fm.failStartTransaction then (some "failed to start transaction", m)
  else
    match addPendingTransactionToPipe fm txs pool [] with
    | Except.error e => (some e, m)
    | Except.ok pipe =>
      if fm.failIncrStart then (some "failed to increment start tick key", m)
      else
        let pipe := pipe ++ [PipeCmd.incrStart]
        if fm.failEndTransaction then (some "failed to end transaction", m)
        else (none, { m with store := applyPipe m.store pipe })

/-! ## FinalizeTick -/

/-- Modelled from the spec: makePipeOfRedisCommands serializes the full
in-memory mutation set into backend write/delete commands queued on one
pipelined transaction; building the pipe may fail. -/
def makePipeOfRedisCommands (fm : FailureModel) (m : EntityCommandBuffer) :
    Except String (List PipeCmd) :=
  if fm.failMakePipe then Except.error "failed to make redis commands pipe"
  else Except.ok (m.mutationSet.map mutationCmd)

/-- Modelled from the spec: DiscardPending clears the in-memory mutation
set; the clearing itself always succeeds. -/
def DiscardPending (m : EntityCommandBuffer) : EntityCommandBuffer :=
  { m with mutationSet := [] }

/-- tick.go FinalizeTick: build the mutation pipe, queue the end-counter
increment, commit, then clear pendingArchIDs and discard the pending
mutation set. -/
def FinalizeTick (fm : FailureModel) (m : EntityCommandBuffer) :
    Option String × EntityCommandBuffer :=
  match makePipeOfRedisCommands fm m with
  | Except.error e => (some e, m)
  | Except.ok pipe =>
    if fm.failIncrEnd then (some "failed to increment end tick key", m)
    else
      let pipe := pipe ++ [PipeCmd.incrEnd]
      if fm.failEndTransaction then (some "failed to end transaction", m)
      else
        let m1 := { m with store := applyPipe m.store pipe,
                           pendingArchIDs := none }
        (none, DiscardPending m1)

/-! ## Recover -/

/-- The possible outcomes of Recover, distinguishing a returned error from
a runtime panic (a nil-interface method call in Go). -/
inductive RecoverOutcome
  | ok (pool : TxPool)
  | err (e : String)
  | panic
deriving Repr, DecidableEq

/-- The id-to-descriptor map built by Recover (Go map insertion: a later
descriptor with the same id overwrites an earlier one, so lookups prefer
later list elements). -/
def mkIdToTx : List Message → MessageID → Option Message
  | [], _ => none
  | tx :: rest, id =>
    match mkIdToTx rest id with
    | some t => some t
    | none => if tx.id = id then some tx else none

/-- The loop of Recover over the decoded journal entries.  When an entry's
type identifier is absent from the map, the Go code reads the map's zero
value, a nil interface, and calls Decode on it, which panics with a nil
pointer dereference; this is modelled by the distinguished panic outcome. -/
def recoverLoop (idToTx : MessageID → Option Message) (pool : TxPool) :
    List pendingTransaction → RecoverOutcome
  | [] => RecoverOutcome.ok pool
  | p :: rest =>
    match idToTx p.TypeID with
    | none => RecoverOutcome.panic
    | some tx =>
      match tx.decode p.Data with
      | Except.error e => RecoverOutcome.err e
      | Except.ok msg =>
        recoverLoop idToTx (pool.addTransaction tx.id msg p.Tx) rest

/-- tick.go Recover: read the journal value (dbStorage.GetBytes surfaces
the backend not-found sentinel as an error, and Recover returns any such
error wrapped, with no special case for an absent key), decode it, and
replay each entry into a freshly constructed pool. -/
def Recover (s : Store) (txs : List Message) : RecoverOutcome :=
  match s.journal with
  | none => RecoverOutcome.err "redis: nil"
  | some bz =>
    match codecDecode bz with
    | Except.error e => RecoverOutcome.err e
    | Except.ok pending => recoverLoop (mkIdToTx txs) TxPool.New pending

/-! ## Observable equality of pools -/

/-- What recovery equivalence observes of one pool entry: its payload and
its source transaction. -/
def observedEntry (d : TxData) : Payload × SignedTx := (d.Msg, d.Tx)

/-- Observable equality of pools: the same per-type ordered payloads and
source transactions for every message type identifier. -/
def observablyEqual (p q : TxPool) : Prop :=
  ∀ id, (p.forID id).map observedEntry = (q.forID id).map observedEntry

/-! ## Basic lemmas about the tick operations -/

lemma applyPipe_start_cmds (s : Store) (v : Bytes) :
    applyPipe s [PipeCmd.setJournal v, PipeCmd.incrStart] =
      { s with journal := some v, startTick := incrOpt s.startTick } := rfl

lemma counterVal_incrOpt (v : Option Nat) :
    counterVal (incrOpt v) = counterVal v + 1 := rfl

/-- Every error path of StartNextTick returns before the commit, leaving
the whole command-buffer state (durable and in-memory) as it was. -/
lemma StartNextTick_error_eq {fm : FailureModel} {m m' : EntityCommandBuffer}
    {txs : List Message} {pool : TxPool} {e : String}
    (h : StartNextTick fm m txs pool = (some e, m')) : m' = m := by
  unfold StartNextTick at h
  by_cases h1 : fm.failStartTransaction
  · simp only [h1, if_true, Prod.mk.injEq] at h
    exact h.2.symm
  · simp only [h1, if_false, Bool.false_eq_true] at h
    unfold addPendingTransactionToPipe at h
    cases hbp : buildPending pool txs with
    | error e2 =>
      simp only [hbp, Prod.mk.injEq] at h
      exact h.2.symm
    | ok pending =>
      simp only [hbp] at h
      by_cases h2 : fm.failSetPending
      · simp only [h2, if_true, Prod.mk.injEq] at h
        exact h.2.symm
      · simp only [h2, if_false, Bool.false_eq_true] at h
        by_cases h3 : fm.failIncrStart
        · simp only [h3, if_true, Prod.mk.injEq] at h
          exact h.2.symm
        · simp only [h3, if_false, Bool.false_eq_true] at h
          by_cases h4 : fm.failEndTransaction
          · simp only [h4, if_true, Prod.mk.injEq] at h
            exact h.2.symm
          · simp only [h4, if_false, Bool.false_eq_true, Prod.mk.injEq] at h
            exact absurd h.1 (by simp)

/-- A successful StartNextTick commits exactly the journal write and the
start-counter increment, both built from a successful buildPending run. -/
lemma StartNextTick_ok_eq {fm : FailureModel} {m m' : EntityCommandBuffer}
    {txs : List Message} {pool : TxPool}
    (h : StartNextTick fm m txs pool = (none, m')) :
    ∃ pending, buildPending pool txs = Except.ok pending ∧
      m' = { m with store := { m.store with
        journal := some (codecEncode pending),
        startTick := incrOpt m.store.startTick } } := by
  unfold StartNextTick at h
  by_cases h1 : fm.failStartTransaction
  · simp only [h1, if_true, Prod.mk.injEq] at h
    exact absurd h.1 (by simp)
  · simp only [h1, if_false, Bool.false_eq_true] at h
    unfold addPendingTransactionToPipe at h
    cases hbp : buildPending pool txs with
    | error e2 =>
      simp only [hbp, Prod.mk.injEq] at h
      exact absurd h.1 (by simp)
    | ok pending =>
      simp only [hbp] at h
      by_cases h2 : fm.failSetPending
      · simp only [h2, if_true, Prod.mk.injEq] at h
        exact absurd h.1 (by simp)
      · simp only [h2, if_false, Bool.false_eq_true] at h
        by_cases h3 : fm.failIncrStart
        · simp only [h3, if_true, Prod.mk.injEq] at h
          exact absurd h.1 (by simp)
        · simp only [h3, if_false, Bool.false_eq_true] at h
          by_cases h4 : fm.failEndTransaction
          · simp only [h4, if_true, Prod.mk.injEq] at h
            exact absurd h.1 (by simp)
          · simp only [h4, if_false, Bool.false_eq_true, Prod.mk.injEq] at h
            exact ⟨pending, rfl, h.2.symm⟩

/-- Every error path of FinalizeTick returns before the commit, leaving the
whole command-buffer state (durable and in-memory) as it was. -/
lemma FinalizeTick_error_eq {fm : FailureModel} {m m' : EntityCommandBuffer}
    {e : String} (h : FinalizeTick fm m = (some e, m')) : m' = m := by
  unfold FinalizeTick makePipeOfRedisCommands at h
  by_cases h1 : fm.failMakePipe
  · simp only [h1, if_true, Prod.mk.injEq] at h
    exact h.2.symm
  · simp only [h1, if_false, Bool.false_eq_true] at h
    by_cases h2 : fm.failIncrEnd
    · simp only [h2, if_true, Prod.mk.injEq] at h
      exact h.2.symm
    · simp only [h2, if_false, Bool.false_eq_true] at h
      by_cases h3 : fm.failEndTransaction
      · simp only [h3, if_true, Prod.mk.injEq] at h
        exact h.2.symm
      · simp only [h3, if_false, Bool.false_eq_true, Prod.mk.injEq] at h
        exact absurd h.1 (by simp)

/-- A successful FinalizeTick commits the mutation pipe followed by the
end-counter increment, then clears pendingArchIDs and the mutation set. -/
lemma FinalizeTick_ok_eq {fm : FailureModel} {m m' : EntityCommandBuffer}
    (h : FinalizeTick fm m = (none, m')) :
    m' = { m with
      store := applyPipe m.store
        (m.mutationSet.map mutationCmd ++ [PipeCmd.incrEnd]),
      pendingArchIDs := none,
      mutationSet := [] } := by
  unfold FinalizeTick makePipeOfRedisCommands at h
  by_cases h1 : fm.failMakePipe
  · simp only [h1, if_true, Prod.mk.injEq] at h
    exact absurd h.1 (by simp)
  · simp only [h1, if_false, Bool.false_eq_true] at h
    by_cases h2 : fm.failIncrEnd
    · simp only [h2, if_true, Prod.mk.injEq] at h
      exact absurd h.1 (by simp)
    · simp only [h2, if_false, Bool.false_eq_true] at h
      by_cases h3 : fm.failEndTransaction
      · simp only [h3, if_true, Prod.mk.injEq] at h
        exact absurd h.1 (by simp)
      · simp only [h3, if_false, Bool.false_eq_true, Prod.mk.injEq] at h
        rw [← h.2]
        rfl

/-- Game-state write/delete commands leave the counters and the journal
untouched. -/
lemma applyPipe_mutationCmds (s : Store) (ms : List Mutation) :
    (applyPipe s (ms.map mutationCmd)).startTick = s.startTick ∧
    (applyPipe s (ms.map mutationCmd)).endTick = s.endTick ∧
    (applyPipe s (ms.map mutationCmd)).journal = s.journal := by
  induction ms generalizing s with
  | nil => exact ⟨rfl, rfl, rfl⟩
  | cons mu rest ih =>
    cases mu with
    | write k v =>
      simpa [applyPipe, mutationCmd, applyCmd] using ih (applyCmd s (PipeCmd.setGame k v))
    | delete k =>
      simpa [applyPipe, mutationCmd, applyCmd] using ih (applyCmd s (PipeCmd.delGame k))

/-- The durable effect of a successful FinalizeTick on the three keys the
engine owns, and its in-memory effect. -/
lemma FinalizeTick_ok_effects {fm : FailureModel} {m m' : EntityCommandBuffer}
    (h : FinalizeTick fm m = (none, m')) :
    m'.store.startTick = m.store.startTick ∧
    m'.store.endTick = incrOpt m.store.endTick ∧
    m'.store.journal = m.store.journal ∧
    m'.mutationSet = [] ∧
    m'.pendingArchIDs = none := by
  rw [FinalizeTick_ok_eq h]
  have hmid := applyPipe_mutationCmds m.store m.mutationSet
  simp only [applyPipe] at hmid
  simp only [applyPipe, List.foldl_append, List.foldl_cons, List.foldl_nil,
    applyCmd]
  exact ⟨hmid.1, by rw [hmid.2.1], hmid.2.2, trivial, trivial⟩

/-! ## Concrete fixtures for witnesses and counterexamples -/

/-- A concrete message descriptor: id 1, a payload encoded as a singleton
byte string. -/
def msgA : Message :=
  ⟨1, fun n => Except.ok [n],
    fun b =>
      match b with
      | [n] => Except.ok n
      | _ => Except.error "bad payload"⟩

/-- A concrete pool holding two transactions of type 1, in order. -/
def poolA : TxPool :=
  (TxPool.New.addTransaction 1 7 100).addTransaction 1 8 101

/-- A command buffer over a fresh store holding one pending mutation. -/
def bufB : EntityCommandBuffer := ⟨freshStore, [Mutation.write 5 [1]], none⟩

/-- A command buffer holding one pending mutation and a cached derived
index. -/
def bufC : EntityCommandBuffer :=
  ⟨freshStore, [Mutation.write 5 [1]], some [3]⟩

/-- A store whose journal holds one entry of a type id (99) matching no
descriptor. -/
def journalUnknown : Store :=
  { freshStore with journal := some (codecEncode [⟨99, 0, [], 0⟩]) }

/-! ## Claim C3: StartNextTick error atomicity -/

/-- C3: on every input on which StartNextTick returns an error (an encode
error, or a backend failure when starting, queuing into, or committing the
pipeline), no durable change is visible afterward: the start and end
counters and the journal key hold their prior values. -/
theorem startNextTick_error_no_durable_change
    (fm : FailureModel) (m m' : EntityCommandBuffer) (txs : List Message)
    (pool : TxPool) (e : String)
    (h : StartNextTick fm m txs pool = (some e, m')) :
    m'.store.startTick = m.store.startTick ∧
    m'.store.endTick = m.store.endTick ∧
    m'.store.journal = m.store.journal := by
  rw [StartNextTick_error_eq h]
  exact ⟨rfl, rfl, rfl⟩

/-- Witness for C3: a commit failure injected into a concrete StartNextTick
leaves the fresh store untouched. -/
theorem startNextTick_error_no_durable_change_witness :
    StartNextTick ⟨false, false, false, false, false, true⟩ freshECB [msgA]
        poolA = (some "failed to end transaction", freshECB) ∧
    (freshECB.store.startTick = freshECB.store.startTick ∧
     freshECB.store.endTick = freshECB.store.endTick ∧
     freshECB.store.journal = freshECB.store.journal) :=
  ⟨rfl, startNextTick_error_no_durable_change
    ⟨false, false, false, false, false, true⟩ freshECB freshECB [msgA] poolA
    "failed to end transaction" rfl⟩

/-! ## Claim C4: FinalizeTick error handling -/

/-- C4: whenever FinalizeTick returns an error, the start and end counters
are unchanged and the in-memory mutation set is not cleared, so an
identical retry of FinalizeTick remains possible. -/
theorem finalizeTick_error_preserves_state
    (fm : FailureModel) (m m' : EntityCommandBuffer) (e : String)
    (h : FinalizeTick fm m = (some e, m')) :
    m'.store.startTick = m.store.startTick ∧
    m'.store.endTick = m.store.endTick ∧
    m'.mutationSet = m.mutationSet := by
  rw [FinalizeTick_error_eq h]
  exact ⟨rfl, rfl, rfl⟩

/-- Witness for C4: a commit failure injected into a concrete FinalizeTick
keeps the nonempty mutation set and the counters. -/
theorem finalizeTick_error_preserves_state_witness :
    FinalizeTick ⟨false, false, false, false, false, true⟩ bufB =
      (some "failed to end transaction", bufB) ∧
    (bufB.store.startTick = bufB.store.startTick ∧
     bufB.store.endTick = bufB.store.endTick ∧
     bufB.mutationSet = bufB.mutationSet) :=
  ⟨rfl, finalizeTick_error_preserves_state
    ⟨false, false, false, false, false, true⟩ bufB bufB
    "failed to end transaction" rfl⟩

/-! ## Claim C8: StartNextTick bumps start only -/

/-- C8: after every successful StartNextTick, the persisted end counter is
unchanged, the persisted start counter is exactly one greater than before,
and no game-state key is written. -/
theorem startNextTick_bumps_start_only
    (fm : FailureModel) (m m' : EntityCommandBuffer) (txs : List Message)
    (pool : TxPool) (h : StartNextTick fm m txs pool = (none, m')) :
    m'.store.endTick = m.store.endTick ∧
    counterVal m'.store.startTick = counterVal m.store.startTick + 1 ∧
    m'.store.gameState = m.store.gameState := by
  obtain ⟨pending, hbp, rfl⟩ := StartNextTick_ok_eq h
  exact ⟨rfl, rfl, rfl⟩

/-- Witness for C8: a concrete successful StartNextTick bumps start from 0
to 1 and leaves end and the game state untouched. -/
theorem startNextTick_bumps_start_only_witness :
    StartNextTick noFail freshECB [msgA] poolA =
      (none, (StartNextTick noFail freshECB [msgA] poolA).2) ∧
    ((StartNextTick noFail freshECB [msgA] poolA).2.store.endTick =
        freshECB.store.endTick ∧
      counterVal (StartNextTick noFail freshECB [msgA] poolA).2.store.startTick =
        counterVal freshECB.store.startTick + 1 ∧
      (StartNextTick noFail freshECB [msgA] poolA).2.store.gameState =
        freshECB.store.gameState) :=
  ⟨rfl, startNextTick_bumps_start_only noFail freshECB _ [msgA] poolA rfl⟩

/-! ## Claim C9: FinalizeTick bumps end only and clears the buffer -/

/-- C9: after every successful FinalizeTick, the persisted start counter is
unchanged, the persisted end counter is exactly one greater than before,
and the in-memory mutation set and the cached pendingArchIDs are cleared. -/
theorem finalizeTick_bumps_end_only
    (fm : FailureModel) (m m' : EntityCommandBuffer)
    (h : FinalizeTick fm m = (none, m')) :
    m'.store.startTick = m.store.startTick ∧
    counterVal m'.store.endTick = counterVal m.store.endTick + 1 ∧
    m'.mutationSet = [] ∧
    m'.pendingArchIDs = none := by
  obtain ⟨h1, h2, h3, h4, h5⟩ := FinalizeTick_ok_effects h
  exact ⟨h1, by rw [h2, counterVal_incrOpt], h4, h5⟩

/-- Witness for C9: a concrete successful FinalizeTick on a buffer holding
one mutation and a cached index bumps end to 1 and clears both. -/
theorem finalizeTick_bumps_end_only_witness :
    FinalizeTick noFail bufC = (none, (FinalizeTick noFail bufC).2) ∧
    ((FinalizeTick noFail bufC).2.store.startTick = bufC.store.startTick ∧
      counterVal (FinalizeTick noFail bufC).2.store.endTick =
        counterVal bufC.store.endTick + 1 ∧
      (FinalizeTick noFail bufC).2.mutationSet = [] ∧
      (FinalizeTick noFail bufC).2.pendingArchIDs = none) :=
  ⟨rfl, finalizeTick_bumps_end_only noFail bufC _ rfl⟩

/-! ## Claim C6: absent keys on first-run read paths -/

/-- C6 counterexample: on a store whose journal key has never been written,
Recover returns the backend not-found error; it does not treat the absent
key as an empty journal and return an empty pool. -/
theorem recover_absent_journal_counterexample :
    Recover freshStore [] = RecoverOutcome.err "redis: nil" ∧
    Recover freshStore [] ≠ RecoverOutcome.ok TxPool.New :=
  ⟨rfl, by decide⟩

/-- C6 amended: GetTickNumbers maps an absent counter key to 0 (so a fresh
store yields (0, 0) without error), while Recover on an absent journal key
returns the wrapped backend not-found error rather than an empty journal. -/
theorem absent_key_first_run (m : EntityCommandBuffer) (txs : List Message)
    (hj : m.store.journal = none) :
    GetTickNumbers m =
      Except.ok (counterVal m.store.startTick, counterVal m.store.endTick) ∧
    GetTickNumbers freshECB = Except.ok (0, 0) ∧
    Recover m.store txs = RecoverOutcome.err "redis: nil" := by
  refine ⟨?_, rfl, ?_⟩
  · cases hs : m.store.startTick <;> cases he : m.store.endTick <;>
      simp [GetTickNumbers, getUInt64, isRedisNil, hs, he, counterVal]
  · simp [Recover, hj]

/-- Witness for C6 (amended): the fresh store reads counters (0, 0) and its
absent journal makes Recover return the not-found error. -/
theorem absent_key_first_run_witness :
    freshECB.store.journal = none ∧
    (GetTickNumbers freshECB =
        Except.ok (counterVal freshECB.store.startTick,
          counterVal freshECB.store.endTick) ∧
      GetTickNumbers freshECB = Except.ok (0, 0) ∧
      Recover freshECB.store [msgA] = RecoverOutcome.err "redis: nil") :=
  ⟨rfl, absent_key_first_run freshECB [msgA] rfl⟩

/-! ## Claim C5: Recover on an unknown message type -/

/-- C5 (code observation): at a journal holding one entry whose type id 99
matches no descriptor passed to Recover, the Go map lookup yields the
interface zero value (nil) and the Decode call on it panics with a nil
pointer dereference; Recover does not return a descriptor-not-found
error. -/
theorem recover_unknown_type_panics :
    Recover journalUnknown [msgA] = RecoverOutcome.panic ∧
    Recover journalUnknown [msgA] ≠
      RecoverOutcome.err "descriptor not found" :=
  ⟨rfl, by decide⟩

/-! ## Claim C2: the counter invariant -/

/-- The states reachable from a fresh store by serial sequences of
successful or failed StartNextTick and FinalizeTick calls in which
StartNextTick is only issued when the start and end counters agree; this is
exactly the reachability the claim quantifies over (FinalizeTick is not
guarded). -/
inductive ReachableClaim : EntityCommandBuffer → Prop
  | init : ReachableClaim freshECB
  | start (fm : FailureModel) (txs : List Message) (pool : TxPool)
      (m m' : EntityCommandBuffer) (e : Option String) :
      ReachableClaim m →
      counterVal m.store.startTick = counterVal m.store.endTick →
      StartNextTick fm m txs pool = (e, m') →
      ReachableClaim m'
  | finalize (fm : FailureModel) (m m' : EntityCommandBuffer)
      (e : Option String) :
      ReachableClaim m →
      FinalizeTick fm m = (e, m') →
      ReachableClaim m'

/-- The states reachable under the full serial tick protocol: additionally,
FinalizeTick is only issued for an in-flight tick (start = end + 1). -/
inductive ReachableProto : EntityCommandBuffer → Prop
  | init : ReachableProto freshECB
  | start (fm : FailureModel) (txs : List Message) (pool : TxPool)
      (m m' : EntityCommandBuffer) (e : Option String) :
      ReachableProto m →
      counterVal m.store.startTick = counterVal m.store.endTick →
      StartNextTick fm m txs pool = (e, m') →
      ReachableProto m'
  | finalize (fm : FailureModel) (m m' : EntityCommandBuffer)
      (e : Option String) :
      ReachableProto m →
      counterVal m.store.startTick = counterVal m.store.endTick + 1 →
      FinalizeTick fm m = (e, m') →
      ReachableProto m'

/-- C2 counterexample: under the claim's reachability (which does not guard
FinalizeTick), a FinalizeTick issued first on a fresh store succeeds and
yields end = 1 with start = 0, violating end ≤ start. -/
theorem tick_counter_invariant_claim_counterexample :
    ReachableClaim (FinalizeTick noFail freshECB).2 ∧
    ¬ (counterVal (FinalizeTick noFail freshECB).2.store.endTick ≤
        counterVal (FinalizeTick noFail freshECB).2.store.startTick) :=
  ⟨ReachableClaim.finalize noFail freshECB _ none ReachableClaim.init rfl,
    by decide⟩

/-- C2 amended: for every state reachable from a fresh store by a serial
sequence of successful or failed StartNextTick and FinalizeTick calls, with
StartNextTick only issued when start = end and FinalizeTick only issued
when start = end + 1, the persisted counters satisfy
0 ≤ end ≤ start ≤ end + 1. -/
theorem tick_counter_invariant (m : EntityCommandBuffer)
    (h : ReachableProto m) :
    counterVal m.store.endTick ≤ counterVal m.store.startTick ∧
    counterVal m.store.startTick ≤ counterVal m.store.endTick + 1 := by
  induction h with
  | init => exact ⟨Nat.le.refl, Nat.le_succ 0⟩
  | start fm txs pool m m' e hr hg hstep ih =>
    cases e with
    | some err =>
      rw [StartNextTick_error_eq hstep]
      exact ih
    | none =>
      obtain ⟨pending, hbp, rfl⟩ := StartNextTick_ok_eq hstep
      show counterVal m.store.endTick ≤ counterVal m.store.startTick + 1 ∧
        counterVal m.store.startTick + 1 ≤ counterVal m.store.endTick + 1
      omega
  | finalize fm m m' e hr hg hstep ih =>
    cases e with
    | some err =>
      rw [FinalizeTick_error_eq hstep]
      exact ih
    | none =>
      obtain ⟨h1, h2, _, _, _⟩ := FinalizeTick_ok_effects hstep
      rw [h1, h2, counterVal_incrOpt]
      omega

/-- Witness for C2 (amended): the state after one concrete successful
StartNextTick is protocol-reachable and satisfies the invariant. -/
theorem tick_counter_invariant_witness :
    ReachableProto (StartNextTick noFail freshECB [msgA] poolA).2 ∧
    (counterVal (StartNextTick noFail freshECB [msgA] poolA).2.store.endTick ≤
      counterVal
        (StartNextTick noFail freshECB [msgA] poolA).2.store.startTick ∧
      counterVal
          (StartNextTick noFail freshECB [msgA] poolA).2.store.startTick ≤
        counterVal
            (StartNextTick noFail freshECB [msgA] poolA).2.store.endTick +
          1) :=
  have hr : ReachableProto (StartNextTick noFail freshECB [msgA] poolA).2 :=
    ReachableProto.start noFail [msgA] poolA freshECB _ none
      ReachableProto.init rfl rfl
  ⟨hr, tick_counter_invariant _ hr⟩

/-! ## Claim C7: journal round-trip -/

/-- C7: decoding the single journal value produced by StartNextTick's
serialization reproduces exactly the same ordered sequence of
pendingTransaction records, with the same (typeID, rawPayload, txHash,
sourceTransaction) tuples in the same order, as was encoded. -/
theorem journal_roundtrip
    (fm : FailureModel) (m m' : EntityCommandBuffer) (txs : List Message)
    (pool : TxPool) (pending : List pendingTransaction)
    (h : StartNextTick fm m txs pool = (none, m'))
    (hbp : buildPending pool txs = Except.ok pending) :
    m'.store.journal = some (codecEncode pending) ∧
    codecDecode (codecEncode pending) = Except.ok pending := by
  obtain ⟨pending2, hbp2, rfl⟩ := StartNextTick_ok_eq h
  rw [hbp] at hbp2
  injection hbp2 with hq
  subst hq
  exact ⟨rfl, codecDecode_codecEncode pending⟩

/-- Witness for C7: the concrete two-transaction pool round-trips through
the journal value written by a concrete StartNextTick. -/
theorem journal_roundtrip_witness :
    StartNextTick noFail freshECB [msgA] poolA =
      (none, (StartNextTick noFail freshECB [msgA] poolA).2) ∧
    buildPending poolA [msgA] =
      Except.ok [⟨1, 100, [7], 100⟩, ⟨1, 101, [8], 101⟩] ∧
    ((StartNextTick noFail freshECB [msgA] poolA).2.store.journal =
        some (codecEncode [⟨1, 100, [7], 100⟩, ⟨1, 101, [8], 101⟩]) ∧
      codecDecode (codecEncode [⟨1, 100, [7], 100⟩, ⟨1, 101, [8], 101⟩]) =
        Except.ok [⟨1, 100, [7], 100⟩, ⟨1, 101, [8], 101⟩]) :=
  ⟨rfl, rfl,
    journal_roundtrip noFail freshECB _ [msgA] poolA _ rfl rfl⟩

/-! ## Claim C10: journal contents of StartNextTick -/

/-- The relation between a (descriptor, pool entry) pair and the journal
record built for it. -/
def pendingRel (e : Message × TxData) (p : pendingTransaction) : Prop :=
  p.TypeID = e.1.id ∧ p.TxHash = e.2.TxHash ∧ p.Tx = e.2.Tx ∧
    e.1.encode e.2.Msg = Except.ok p.Data

lemma encodeGroup_ok_of_encodes (tx : Message) (ds : List TxData)
    (h : ∀ d ∈ ds, ∃ b, tx.encode d.Msg = Except.ok b) :
    ∃ ps, encodeGroup tx ds = Except.ok ps ∧
      List.Forall₂ (fun d p => pendingRel (tx, d) p) ds ps := by
  induction ds with
  | nil => exact ⟨[], rfl, List.Forall₂.nil⟩
  | cons d rest ih =>
    obtain ⟨b, hb⟩ := h d (List.mem_cons_self d rest)
    obtain ⟨ps, hps, hrel⟩ :=
      ih (fun d2 hd2 => h d2 (List.mem_cons_of_mem _ hd2))
    refine ⟨⟨tx.id, d.TxHash, b, d.Tx⟩ :: ps, ?_, ?_⟩
    · simp [encodeGroup, hb, hps]
    · exact List.Forall₂.cons ⟨rfl, rfl, rfl, hb⟩ hrel

lemma buildPending_ok_of_encodes (pool : TxPool) (txs : List Message)
    (h : ∀ tx ∈ txs, ∀ d ∈ pool.forID tx.id,
      ∃ b, tx.encode d.Msg = Except.ok b) :
    ∃ pending, buildPending pool txs = Except.ok pending ∧
      List.Forall₂ pendingRel
        (txs.flatMap (fun tx => (pool.forID tx.id).map (fun d => (tx, d))))
        pending := by
  induction txs with
  | nil => exact ⟨[], rfl, by simp⟩
  | cons tx rest ih =>
    obtain ⟨ps, hps, hrelg⟩ :=
      encodeGroup_ok_of_encodes tx (pool.forID tx.id)
        (h tx (List.mem_cons_self tx rest))
    obtain ⟨pending, hpend, hrel⟩ :=
      ih (fun tx2 htx2 => h tx2 (List.mem_cons_of_mem _ htx2))
    refine ⟨ps ++ pending, ?_, ?_⟩
    · simp [buildPending, hps, hpend]
    · rw [List.flatMap_cons]
      exact List.rel_append (List.forall₂_map_left_iff.mpr hrelg) hrel

lemma buildPending_agree (pool pool2 : TxPool) (txs : List Message)
    (hagree : ∀ tx ∈ txs, pool2.forID tx.id = pool.forID tx.id) :
    buildPending pool2 txs = buildPending pool txs := by
  induction txs with
  | nil => rfl
  | cons tx rest ih =>
    simp only [buildPending]
    rw [hagree tx (List.mem_cons_self tx rest),
      ih (fun tx2 htx2 => hagree tx2 (List.mem_cons_of_mem _ htx2))]

/-- C10: when every listed descriptor encodes its pool transactions
successfully, the journal sequence built by StartNextTick contains exactly
those pool transactions whose type id equals the id of some descriptor in
the txs list, grouped in descriptor-list order with per-type submission
order preserved; and the built sequence does not depend on pool
transactions registered under any other type id, which are silently
omitted without an error. -/
theorem startNextTick_journal_contents (pool : TxPool) (txs : List Message)
    (henc : ∀ tx ∈ txs, ∀ d ∈ pool.forID tx.id,
      ∃ b, tx.encode d.Msg = Except.ok b) :
    (∃ pending, buildPending pool txs = Except.ok pending ∧
      List.Forall₂ pendingRel
        (txs.flatMap (fun tx => (pool.forID tx.id).map (fun d => (tx, d))))
        pending) ∧
    (∀ pool2 : TxPool, (∀ tx ∈ txs, pool2.forID tx.id = pool.forID tx.id) →
      buildPending pool2 txs = buildPending pool txs) :=
  ⟨buildPending_ok_of_encodes pool txs henc,
    fun pool2 hagree => buildPending_agree pool pool2 txs hagree⟩

/-- A pool holding two transactions of type 1 and one of type 2. -/
def poolB : TxPool := poolA.addTransaction 2 9 200

/-- Witness for C10: with descriptor list [msgA] (type 1 only), the built
journal covers exactly the type-1 transactions of a pool that also holds a
type-2 transaction. -/
theorem startNextTick_journal_contents_witness :
    (∀ tx ∈ [msgA], ∀ d ∈ poolB.forID tx.id,
      ∃ b, tx.encode d.Msg = Except.ok b) ∧
    ((∃ pending, buildPending poolB [msgA] = Except.ok pending ∧
      List.Forall₂ pendingRel
        ([msgA].flatMap
          (fun tx => (poolB.forID tx.id).map (fun d => (tx, d))))
        pending) ∧
    (∀ pool2 : TxPool,
      (∀ tx ∈ [msgA], pool2.forID tx.id = poolB.forID tx.id) →
      buildPending pool2 [msgA] = buildPending poolB [msgA])) :=
  have henc : ∀ tx ∈ [msgA], ∀ d ∈ poolB.forID tx.id,
      ∃ b, tx.encode d.Msg = Except.ok b := by
    intro tx htx d hd
    rw [List.mem_singleton] at htx
    subst htx
    exact ⟨[d.Msg], rfl⟩
  ⟨henc, startNextTick_journal_contents poolB [msgA] henc⟩

/-! ## Claim C1: recovery equivalence -/

/-- The pool entry Recover rebuilds for one journalled transaction. -/
def rebuiltEntry (d : TxData) : TxData := ⟨d.Msg, hashOf d.Tx, d.Tx⟩

/-- Replaying one decoded group into a pool by repeated AddTransaction. -/
def addGroup (idv : MessageID) (q : TxPool) (ds : List TxData) : TxPool :=
  ds.foldl (fun q2 d => q2.addTransaction idv d.Msg d.Tx) q

/-- The pool Recover reconstructs from pool P and descriptor list txs. -/
def replayPool (P : TxPool) (txs : List Message) : TxPool :=
  txs.foldl (fun q tx => addGroup tx.id q (P.forID tx.id)) TxPool.New

lemma findGroup_addToGroups_same (l : List (MessageID × List TxData))
    (id : MessageID) (d : TxData) :
    findGroup (addToGroups id d l) id = findGroup l id ++ [d] := by
  induction l with
  | nil => simp [addToGroups, findGroup]
  | cons g rest ih =>
    obtain ⟨k, ds⟩ := g
    by_cases hk : k = id
    · simp [addToGroups, findGroup, hk]
    · simp [addToGroups, findGroup, hk, ih]

lemma findGroup_addToGroups_ne (l : List (MessageID × List TxData))
    (id id2 : MessageID) (d : TxData) (h : id2 ≠ id) :
    findGroup (addToGroups id d l) id2 = findGroup l id2 := by
  induction l with
  | nil => simp [addToGroups, findGroup, Ne.symm h]
  | cons g rest ih =>
    obtain ⟨k, ds⟩ := g
    by_cases hk : k = id
    · subst hk
      simp [addToGroups, findGroup, Ne.symm h]
    · simp [addToGroups, findGroup, hk, ih]

lemma forID_addTransaction_same (p : TxPool) (id : MessageID)
    (msg : Payload) (tx : SignedTx) :
    (p.addTransaction id msg tx).forID id =
      p.forID id ++ [⟨msg, hashOf tx, tx⟩] :=
  findGroup_addToGroups_same p.txs id ⟨msg, hashOf tx, tx⟩

lemma forID_addTransaction_ne (p : TxPool) (id id2 : MessageID)
    (msg : Payload) (tx : SignedTx) (h : id2 ≠ id) :
    (p.addTransaction id msg tx).forID id2 = p.forID id2 :=
  findGroup_addToGroups_ne p.txs id id2 ⟨msg, hashOf tx, tx⟩ h

lemma addGroup_forID_same (idv : MessageID) (ds : List TxData) (q : TxPool) :
    (addGroup idv q ds).forID idv = q.forID idv ++ ds.map rebuiltEntry := by
  induction ds generalizing q with
  | nil => simp [addGroup]
  | cons d rest ih =>
    show (addGroup idv (q.addTransaction idv d.Msg d.Tx) rest).forID idv = _
    rw [ih, forID_addTransaction_same]
    simp [rebuiltEntry]

lemma addGroup_forID_ne (idv id2 : MessageID) (ds : List TxData) (q : TxPool)
    (h : id2 ≠ idv) :
    (addGroup idv q ds).forID id2 = q.forID id2 := by
  induction ds generalizing q with
  | nil => rfl
  | cons d rest ih =>
    show (addGroup idv (q.addTransaction idv d.Msg d.Tx) rest).forID id2 = _
    rw [ih, forID_addTransaction_ne _ _ _ _ _ h]

lemma replay_fold_forID (P : TxPool) (id2 : MessageID) (txs : List Message)
    (q : TxPool) (hnd : (txs.map Message.id).Nodup) :
    (txs.foldl (fun q2 tx => addGroup tx.id q2 (P.forID tx.id)) q).forID id2 =
      q.forID id2 ++
        (match txs.find? (fun tx => tx.id == id2) with
         | some _ => (P.forID id2).map rebuiltEntry
         | none => []) := by
  induction txs generalizing q with
  | nil => simp
  | cons t rest ih =>
    simp only [List.map_cons, List.nodup_cons] at hnd
    simp only [List.foldl_cons]
    rw [ih _ hnd.2]
    by_cases ht : t.id = id2
    · have hfind : (t :: rest).find? (fun tx => tx.id == id2) = some t :=
        List.find?_cons_of_pos rest (by simp [ht])
      have hnone : rest.find? (fun tx => tx.id == id2) = none := by
        rw [List.find?_eq_none]
        intro x hx hc
        rw [beq_iff_eq] at hc
        have hmem : x.id ∈ List.map Message.id rest :=
          List.mem_map_of_mem Message.id hx
        rw [hc, ← ht] at hmem
        exact absurd hmem hnd.1
      rw [hfind, hnone]
      subst ht
      rw [addGroup_forID_same]
      simp
    · have hfind : (t :: rest).find? (fun tx => tx.id == id2) =
          rest.find? (fun tx => tx.id == id2) :=
        List.find?_cons_of_neg rest (by simp [ht])
      rw [hfind, addGroup_forID_ne _ _ _ _ (fun hc => ht hc.symm)]

lemma mkIdToTx_eq_none (txs : List Message) (id : MessageID)
    (h : ∀ tx ∈ txs, tx.id ≠ id) : mkIdToTx txs id = none := by
  induction txs with
  | nil => rfl
  | cons t rest ih =>
    simp only [mkIdToTx,
      ih (fun tx htx => h tx (List.mem_cons_of_mem _ htx))]
    simp [h t (List.mem_cons_self t rest)]

lemma mkIdToTx_eq_some (txs : List Message) (tx : Message)
    (hmem : tx ∈ txs) (hnd : (txs.map Message.id).Nodup) :
    mkIdToTx txs tx.id = some tx := by
  induction txs with
  | nil => cases hmem
  | cons t rest ih =>
    rw [List.mem_cons] at hmem
    simp only [List.map_cons, List.nodup_cons] at hnd
    cases hmem with
    | inl h =>
      subst h
      have hrest : mkIdToTx rest tx.id = none := by
        apply mkIdToTx_eq_none
        intro u hu hc
        exact hnd.1 (by rw [← hc]; exact List.mem_map_of_mem Message.id hu)
      simp [mkIdToTx, hrest]
    | inr h =>
      have := ih h hnd.2
      simp [mkIdToTx, this]

/-- Sequencing on recovery outcomes: continue on ok, keep a returned error
or a panic. -/
def bindOutcome (r : RecoverOutcome) (f : TxPool → RecoverOutcome) :
    RecoverOutcome :=
  match r with
  | RecoverOutcome.ok pool => f pool
  | RecoverOutcome.err e => RecoverOutcome.err e
  | RecoverOutcome.panic => RecoverOutcome.panic

lemma recoverLoop_append (idToTx : MessageID → Option Message) (pool : TxPool)
    (ps qs : List pendingTransaction) :
    recoverLoop idToTx pool (ps ++ qs) =
      bindOutcome (recoverLoop idToTx pool ps)
        (fun pool1 => recoverLoop idToTx pool1 qs) := by
  induction ps generalizing pool with
  | nil => simp [recoverLoop, bindOutcome]
  | cons p rest ih =>
    simp only [List.cons_append, recoverLoop]
    cases hc : idToTx p.TypeID with
    | none => simp [bindOutcome]
    | some tx =>
      cases hd : tx.decode p.Data with
      | error e => simp [bindOutcome, hd]
      | ok msg => simp [bindOutcome, hd, ih]

lemma recoverLoop_group (idToTx : MessageID → Option Message) (tx : Message)
    (ds : List TxData) (ps : List pendingTransaction) (pool : TxPool)
    (hlook : idToTx tx.id = some tx)
    (hinv : ∀ msg buf, tx.encode msg = Except.ok buf →
      tx.decode buf = Except.ok msg)
    (henc : encodeGroup tx ds = Except.ok ps) :
    recoverLoop idToTx pool ps = RecoverOutcome.ok (addGroup tx.id pool ds) := by
  induction ds generalizing pool ps with
  | nil =>
    injection henc with hps
    subst hps
    rfl
  | cons d rest ih =>
    unfold encodeGroup at henc
    cases hb : tx.encode d.Msg with
    | error e => rw [hb] at henc; cases henc
    | ok buf =>
      rw [hb] at henc
      cases hg : encodeGroup tx rest with
      | error e => rw [hg] at henc; cases henc
      | ok tail =>
        rw [hg] at henc
        injection henc with hps
        subst hps
        simp only [recoverLoop, hlook, hinv d.Msg buf hb]
        exact ih tail (pool.addTransaction tx.id d.Msg d.Tx) hg

lemma recoverLoop_buildPending (txs : List Message) (P : TxPool)
    (pending : List pendingTransaction)
    (idToTx : MessageID → Option Message)
    (hlook : ∀ tx ∈ txs, idToTx tx.id = some tx)
    (hinv : ∀ tx ∈ txs, ∀ msg buf, tx.encode msg = Except.ok buf →
      tx.decode buf = Except.ok msg)
    (hbp : buildPending P txs = Except.ok pending) (q : TxPool) :
    recoverLoop idToTx q pending =
      RecoverOutcome.ok
        (txs.foldl (fun q2 tx => addGroup tx.id q2 (P.forID tx.id)) q) := by
  induction txs generalizing pending q with
  | nil =>
    injection hbp with hp
    subst hp
    rfl
  | cons tx rest ih =>
    unfold buildPending at hbp
    cases hg : encodeGroup tx (P.forID tx.id) with
    | error e => rw [hg] at hbp; cases hbp
    | ok grp =>
      rw [hg] at hbp
      cases ht : buildPending P rest with
      | error e => rw [ht] at hbp; cases hbp
      | ok tail =>
        rw [ht] at hbp
        injection hbp with hp
        subst hp
        rw [recoverLoop_append]
        rw [recoverLoop_group idToTx tx (P.forID tx.id) grp q
          (hlook tx (List.mem_cons_self tx rest))
          (hinv tx (List.mem_cons_self tx rest)) hg]
        simp only [bindOutcome]
        exact ih tail
          (fun t htx => hlook t (List.mem_cons_of_mem _ htx))
          (fun t htx => hinv t (List.mem_cons_of_mem _ htx))
          ht (addGroup tx.id q (P.forID tx.id))

lemma Recover_encoded_journal (s : Store) (pending : List pendingTransaction)
    (txs : List Message) (hj : s.journal = some (codecEncode pending)) :
    Recover s txs = recoverLoop (mkIdToTx txs) TxPool.New pending := by
  unfold Recover
  rw [hj]
  simp only [codecDecode_codecEncode]

/-- C1: a pool passed to a successful StartNextTick that is not followed by
a FinalizeTick is reconstructed by Recover with the same descriptors, up to
observable equality (same types, same per-type ordered payloads, same
source transactions), assuming the descriptors carry pairwise distinct ids,
the pool holds no transactions of an unlisted type, and each descriptor's
decode is a left inverse of its encode. -/
theorem recover_equivalence
    (fm : FailureModel) (m m' : EntityCommandBuffer) (txs : List Message)
    (P : TxPool)
    (hnd : (txs.map Message.id).Nodup)
    (hcover : ∀ id, (∀ tx ∈ txs, tx.id ≠ id) → P.forID id = [])
    (hinv : ∀ tx ∈ txs, ∀ msg buf, tx.encode msg = Except.ok buf →
      tx.decode buf = Except.ok msg)
    (h : StartNextTick fm m txs P = (none, m')) :
    ∃ Q, Recover m'.store txs = RecoverOutcome.ok Q ∧ observablyEqual P Q := by
  obtain ⟨pending, hbp, rfl⟩ := StartNextTick_ok_eq h
  refine ⟨replayPool P txs, ?_, ?_⟩
  · rw [Recover_encoded_journal _ pending txs rfl]
    exact recoverLoop_buildPending txs P pending (mkIdToTx txs)
      (fun tx htx => mkIdToTx_eq_some txs tx htx hnd) hinv hbp TxPool.New
  · intro id2
    unfold replayPool
    rw [replay_fold_forID P id2 txs TxPool.New hnd]
    have hnew : TxPool.New.forID id2 = [] := rfl
    rw [hnew]
    cases hfind : txs.find? (fun tx => tx.id == id2) with
    | none =>
      rw [List.find?_eq_none] at hfind
      have hempty : P.forID id2 = [] := by
        apply hcover
        intro tx htx hc
        exact hfind tx htx (by rw [beq_iff_eq]; exact hc)
      simp [hempty]
    | some tx =>
      simp [observedEntry, rebuiltEntry, List.map_map, Function.comp]

/-- The pool Recover rebuilds when poolB was journalled under the
descriptor list [msgA]: only the type-1 transactions survive. -/
def poolBRecovered : TxPool := ⟨[(1, [⟨7, 100, 100⟩, ⟨8, 101, 101⟩])]⟩

/-- C1 counterexample: a pool holding a transaction of type 2 passed to a
successful StartNextTick whose descriptor list knows only type 1 (the
descriptor's decode is a left inverse of its encode) is not reconstructed
observably equal by Recover: the type-2 transaction was silently omitted
from the journal. -/
theorem recover_equivalence_claim_counterexample :
    StartNextTick noFail freshECB [msgA] poolB =
      (none, (StartNextTick noFail freshECB [msgA] poolB).2) ∧
    Recover (StartNextTick noFail freshECB [msgA] poolB).2.store [msgA] =
      RecoverOutcome.ok poolBRecovered ∧
    ¬ observablyEqual poolB poolBRecovered := by
  refine ⟨rfl, rfl, ?_⟩
  intro h
  have h2 := h 2
  revert h2
  decide

/-- Witness for C1 (amended): the concrete two-transaction pool is
recovered observably intact after a concrete successful StartNextTick. -/
theorem recover_equivalence_witness :
    ([msgA].map Message.id).Nodup ∧
    (∀ id, (∀ tx ∈ [msgA], tx.id ≠ id) → poolA.forID id = []) ∧
    (∀ tx ∈ [msgA], ∀ msg buf, tx.encode msg = Except.ok buf →
      tx.decode buf = Except.ok msg) ∧
    StartNextTick noFail freshECB [msgA] poolA =
      (none, (StartNextTick noFail freshECB [msgA] poolA).2) ∧
    (∃ Q, Recover (StartNextTick noFail freshECB [msgA] poolA).2.store [msgA] =
        RecoverOutcome.ok Q ∧ observablyEqual poolA Q) := by
  have hnd : ([msgA].map Message.id).Nodup := by decide
  have hcover : ∀ id, (∀ tx ∈ [msgA], tx.id ≠ id) → poolA.forID id = [] := by
    intro id h
    have h1 : (1 : MessageID) ≠ id := h msgA (List.mem_cons_self msgA [])
    show findGroup [(1, [⟨7, 100, 100⟩, ⟨8, 101, 101⟩])] id = []
    simp [findGroup, h1]
  have hinv : ∀ tx ∈ [msgA], ∀ msg buf, tx.encode msg = Except.ok buf →
      tx.decode buf = Except.ok msg := by
    intro tx htx msg buf henc
    rw [List.mem_singleton] at htx
    subst htx
    have henc2 : Except.ok [msg] = Except.ok buf := henc
    injection henc2 with hbuf
    subst hbuf
    rfl
  exact ⟨hnd, hcover, hinv, rfl,
    recover_equivalence noFail freshECB _ [msgA] poolA hnd hcover hinv rfl⟩

end WorldEngine
